import Mathlib

/-!
Verification of the ape-dts pipeline core against its specification.

Shallow embedding of:
  - `SnapshotParallelizer::partition` (dt-parallelizer/src/snapshot_parallelizer.rs)
  - `PgSinker::{sink_dml, serial_sink, batch_insert, get_insert_query}`
    (ape-dts/src/sinker/pg/pg_sinker.rs)
  - `MysqlSnapshotExtractor::{extract_internal, extract_all, extract_by_slices}`
    (ape-dts/src/extractor/mysql/mysql_snapshot_extractor.rs)
  - `MysqlStructExtractor::{extract_internal, push_dt_data}`
    (dt-connector/src/extractor/mysql/mysql_struct_extractor.rs)
  - `RedisPrechecker::check_database_version`
    (dt-precheck/src/prechecker/redis_prechecker.rs)

Machine integers (usize) are modelled as Nat (no index arithmetic here comes
near overflow and Rust would panic on wrap in debug anyway).  A Rust panic
(`unwrap` on an error) is modelled as a distinct `panicked` outcome, never
silently collapsed into success.  Database-side effects are modelled by
explicit oracles (a Bool per statement for execution success, a row list for
query results).
-/

/-- Outcome of running a fallible routine: normal return, or a Rust panic
(from `unwrap()` on an `Err`). -/
inductive Outcome where
| ok : Outcome
| panicked : Outcome
deriving DecidableEq, Repr

/-! ## SnapshotParallelizer (dt-parallelizer/src/snapshot_parallelizer.rs) -/

namespace SnapshotParallelizer

/-- One iteration of the fill loop body `sub_datas[i / avg_size].push(row_data)`.
Rust indexing would panic out of bounds; the development proves the index is
always in bounds for the partition call, where `set`/`getD` agree with it. -/
def place (avg : Nat) (buckets : List (List α)) (i : Nat) (x : α) : List (List α) :=
  buckets.set (i / avg) (buckets.getD (i / avg) [] ++ [x])

/-- Embedding of `SnapshotParallelizer::partition` (snapshot_parallelizer.rs:47-66).
The Rust function returns `anyhow::Result` but never errs; the `Ok` wrapper is
dropped.  `data.enum` pairs each row with its index, as `data.into_iter().enumerate()`. -/
def partition (data : List α) (parallele_size : Nat) : List (List α) :=
  if parallele_size ≤ 1 then [data]
  else
    let avg_size := data.length / parallele_size + 1
    data.enum.foldl (fun acc p => place avg_size acc p.1 p.2)
      (List.replicate parallele_size [])

end SnapshotParallelizer

/-! ## Row model (dt-common meta types; not under src/) -/

/-- Modelled from the spec: `ColValue` (§3 data model) is a tagged value; the
claims under verification never inspect the payloads, so only representative
variants are carried. -/
inductive ColValue where
| nullV : ColValue
| intV : Int → ColValue
| strV : String → ColValue
| noneV : ColValue
deriving DecidableEq, Repr

/-- Modelled from the spec: `RowType` of a `RowData` (§3). -/
inductive RowType where
| insert : RowType
| update : RowType
| delete : RowType
deriving DecidableEq, Repr

/-- Modelled from the spec: `RowData` (§3); `before`/`after` are column→value
maps, rendered as association lists.  `position` is opaque and omitted. -/
structure RowData where
  schema : String
  tb : String
  row_type : RowType
  before : Option (List (String × ColValue))
  after : Option (List (String × ColValue))
deriving DecidableEq, Repr

/-- HashMap `get(col)` on an association list. -/
def mapGet (m : List (String × ColValue)) (col : String) : Option ColValue :=
  (m.find? (fun p => p.1 = col)).map Prod.snd

/-- Modelled from the spec: the `basic` part of `PgTbMeta` (§3 `TbMeta`):
column list, id (key) columns, optional order column. -/
structure RdbTbMetaBasic where
  schema : String
  tb : String
  cols : List String
  id_cols : List String
  order_col : Option String
deriving DecidableEq, Repr

/-- Modelled from the spec: `PgTbMeta` — the basic part is all the sinker
claims read (`col_type_map` is never consulted on these paths). -/
structure PgTbMeta where
  basic : RdbTbMetaBasic
deriving DecidableEq, Repr

/-! ## SqlUtil contract (dt-common sql builder; not under src/) -/

namespace SqlUtil

/-- Modelled from the spec: Postgres identifier quoting used by the SQL
builder (`quote(col)`, §6). -/
def quote (col : String) : String := "\"" ++ col ++ "\""

/-- Modelled from the spec: Postgres placeholders are `$n` (§6
`get_placeholder(i, col)`). -/
def get_placeholder (i : Nat) (_col : String) : String := "$" ++ toString i

/-- Modelled from the spec: `quote_cols(cols)` (§6). -/
def quote_cols (cols : List String) : List String := cols.map quote

/-- Modelled from the spec: `SqlUtil::get_insert_query(row) → (sql, cols, binds)`
(§6): a single-row INSERT whose VALUES clause binds every table column with
placeholders `$1`..`$n` in column order. -/
def get_insert_query (tb_meta : PgTbMeta) (row_data : RowData) :
    String × List String × List (Option ColValue) :=
  let cols := tb_meta.basic.cols
  let placeholders := (List.range cols.length).map
    (fun k => get_placeholder (k + 1) (cols.getD k ""))
  let sql := "INSERT INTO " ++ tb_meta.basic.schema ++ "." ++ tb_meta.basic.tb ++
    " (" ++ String.intercalate "," (quote_cols cols) ++ ") VALUES (" ++
    String.intercalate "," placeholders ++ ")"
  let binds := cols.map (fun c =>
    match row_data.after with
    | some m => mapGet m c
    | none => none)
  (sql, cols, binds)

end SqlUtil

/-! ## PgSinker (ape-dts/src/sinker/pg/pg_sinker.rs) -/

namespace PgSinker

/-- The loop of `PgSinker::get_insert_query` (pg_sinker.rs:130-143): walk
`tb_meta.basic.cols` with the running `placeholder_index`, producing for each
column its SET pair, the column name, and the bind from `after`. -/
def upsertLoop (after : List (String × ColValue)) :
    List String → Nat → List (String × String × Option ColValue)
  | [], _ => []
  | col :: rest, placeholder_index =>
    (SqlUtil.quote col ++ "=" ++ SqlUtil.get_placeholder placeholder_index col,
      col, mapGet after col) :: upsertLoop after rest (placeholder_index + 1)

/-- Embedding of `PgSinker::get_insert_query` (pg_sinker.rs:121-151).
`row_data.after.as_ref().unwrap()` panics when `after` is absent: modelled as
`none`. -/
def get_insert_query (tb_meta : PgTbMeta) (row_data : RowData) :
    Option (String × List String × List (Option ColValue)) :=
  let (sql0, cols0, binds0) := SqlUtil.get_insert_query tb_meta row_data
  match row_data.after with
  | none => none
  | some after =>
    let triples := upsertLoop after tb_meta.basic.cols (cols0.length + 1)
    let set_pairs := triples.map (fun t => t.1)
    let cols := cols0 ++ triples.map (fun t => t.2.1)
    let binds := binds0 ++ triples.map (fun t => t.2.2)
    let sql := sql0 ++ " ON CONFLICT (" ++
      String.intercalate "," (SqlUtil.quote_cols tb_meta.basic.id_cols) ++
      ") DO UPDATE SET " ++ String.intercalate "," set_pairs
    some (sql, cols, binds)

/-- Embedding of `PgSinker::serial_sink` (pg_sinker.rs:62-76).  `execRow r`
tells whether the single-row statement built for `r` executes successfully;
`query.execute(..).await.unwrap()` turns a statement failure into a panic.
Returns the rows whose statements were submitted, in submission order, and
the outcome. -/
def serial_sink (execRow : RowData → Bool) : List RowData → List RowData × Outcome
  | [] => ([], Outcome.ok)
  | r :: rest =>
    if execRow r then
      let (submitted, o) := serial_sink execRow rest
      (r :: submitted, o)
    else ([r], Outcome.panicked)

/-- Embedding of `PgSinker::batch_insert` (pg_sinker.rs:94-119).  `execBatch`
tells whether the one batched INSERT statement for
`data[sinked_count..sinked_count+batch_size]` succeeds; on failure the code
logs and re-runs exactly that sub-slice through `serial_sink` (whose own
failures panic via `unwrap`).  Returns the rows submitted serially and the
outcome. -/
def batch_insert (execBatch : Bool) (execRow : RowData → Bool)
    (data : List RowData) (sinked_count batch_size : Nat) :
    List RowData × Outcome :=
  if execBatch then ([], Outcome.ok)
  else serial_sink execRow ((data.drop sinked_count).take batch_size)

/-- Which code path `PgSinker::sink_dml` routes a call through. -/
inductive SinkPath where
| noop : SinkPath
| serialPath : List RowData → SinkPath
| batchInsertPath : List RowData → SinkPath
| batchDeletePath : List RowData → SinkPath
deriving DecidableEq, Repr

/-- Embedding of the dispatch of `PgSinker::sink_dml` (pg_sinker.rs:31-50):
empty input is a no-op; `batch = false` goes serial; otherwise the match is
on `data[0].row_type` alone, and `call_batch_fn!` feeds the whole vector to
the chosen batch routine. -/
def sink_dml (data : List RowData) (batch : Bool) : SinkPath :=
  match data with
  | [] => SinkPath.noop
  | d0 :: _ =>
    if !batch then SinkPath.serialPath data
    else
      match d0.row_type with
      | RowType.insert => SinkPath.batchInsertPath data
      | RowType.delete => SinkPath.batchDeletePath data
      | _ => SinkPath.serialPath data

end PgSinker

/-! ## MysqlSnapshotExtractor (ape-dts/src/extractor/mysql/mysql_snapshot_extractor.rs) -/

namespace MysqlSnapshotExtractor

/-- A source row, reduced to its `order_col` value (a Nat models the column's
native ordering; nothing else about the row is read by the slice loop). -/
structure SliceRow where
  key : Nat
deriving DecidableEq, Repr

/-- The table is strictly ordered on `order_col` — the precondition under
which `order_col` is chosen at all (spec §3: a strictly-monotone-per-row
column, typically a PK). -/
def StrictSorted (t : List SliceRow) : Prop :=
  t.Pairwise (fun a b => a.key < b.key)

instance (t : List SliceRow) : Decidable (StrictSorted t) := by
  unfold StrictSorted; infer_instance

/-- The slice query issued each iteration (mysql_snapshot_extractor.rs:112-128):
`sql1` = `SELECT * .. ORDER BY order_col ASC LIMIT S` when `start_value` is
still the `ColValue::None` sentinel, `sql2` = the same with
`WHERE order_col > ?` once a row has been seen.  Over an immutable table
strictly sorted on the order column these evaluate to `take`/`filter·take`. -/
def sliceQuery (t : List SliceRow) (start : Option Nat) (S : Nat) : List SliceRow :=
  match start with
  | none => t.take S
  | some k => (t.filter (fun r => k < r.key)).take S

/-- Proof helper: the rows still visible to the keyset predicate for a given
`start_value` (`rem t none = t`; `rem t (some k)` keeps keys above `k`).
`sliceQuery t start S` is `(rem t start).take S`. -/
def rem (t : List SliceRow) (start : Option Nat) : List SliceRow :=
  match start with
  | none => t
  | some k => t.filter (fun r => k < r.key)

/-- Result of a finished sliced extraction: the rows pushed (in push order)
and the row count of each slice query, in query order. -/
structure SliceRun where
  pushed : List SliceRow
  sliceLens : List Nat
deriving DecidableEq, Repr

/-- The `loop { .. }` of `extract_by_slices` (mysql_snapshot_extractor.rs:130-146),
fuelled: each pass issues one slice query, pushes every returned row (updating
`start_value` to that row's order-col value), and breaks when
`slice_count < slice_size`.  `none` means the fuel ran out — the loop did not
terminate within `fuel` queries. -/
def sliceLoop (t : List SliceRow) (S : Nat) :
    Nat → Option Nat → List SliceRow → List Nat → Option SliceRun
  | 0, _, _, _ => none
  | fuel + 1, start, pushed, lens =>
    let rows := sliceQuery t start S
    let pushed' := pushed ++ rows
    let start' := match rows.getLast? with
      | some r => some r.key
      | none => start
    let lens' := lens ++ [rows.length]
    if rows.length < S then some ⟨pushed', lens'⟩
    else sliceLoop t S fuel start' pushed' lens'

/-- Embedding of `extract_by_slices` (mysql_snapshot_extractor.rs:98-155) with
`init_start_value = ColValue::None` as called from `extract_internal`. -/
def extract_by_slices (t : List SliceRow) (S : Nat) (fuel : Nat) : Option SliceRun :=
  sliceLoop t S fuel none [] []

/-- Producer-side events of `extract_internal`, in program order: a queue
`push`, one poll of `buffer.is_empty()` (negative or positive), and the final
`shut_down.store(true, Ordering::Release)`. -/
inductive ExEvent where
| push : SliceRow → ExEvent
| observeNonEmpty : ExEvent
| observeEmpty : ExEvent
| storeShutdown : ExEvent
deriving DecidableEq, Repr

/-- The `while !self.buffer.is_empty() { sleep_millis(1) }` wait
(mysql_snapshot_extractor.rs:66-68), fuelled.  `empt k` is what the `k`-th
poll of `buffer.is_empty()` observes (the consumer drains concurrently);
the loop exits on the first `true`. -/
def waitLoop (empt : Nat → Bool) : Nat → Nat → Option (List ExEvent)
  | 0, _ => none
  | fuel + 1, k =>
    if empt k then some [ExEvent.observeEmpty]
    else (waitLoop empt fuel (k + 1)).map (fun tr => ExEvent.observeNonEmpty :: tr)

/-- Embedding of `extract_internal` (mysql_snapshot_extractor.rs:54-72) as its
producer-side event trace: extract (by slices when `order_col` is set, else
the single full-scan cursor of `extract_all`, which pushes every table row in
order), then busy-wait for the queue to be observed empty, then store the
shutdown flag.  `none` when either fuelled loop runs out of fuel. -/
def extract_internal (hasOrderCol : Bool) (t : List SliceRow) (S : Nat)
    (empt : Nat → Bool) (fuel wfuel : Nat) : Option (List ExEvent) :=
  let pushesOpt : Option (List SliceRow) :=
    if hasOrderCol then (extract_by_slices t S fuel).map SliceRun.pushed
    else some t
  match pushesOpt with
  | none => none
  | some rows =>
    (waitLoop empt wfuel 0).map
      (fun wt => rows.map ExEvent.push ++ wt ++ [ExEvent.storeShutdown])

/-- Embedding of the fetch loop of `extract_all`
(mysql_snapshot_extractor.rs:74-96) over the stream of `try_next()` results:
`Except.error` is a transient source read error, on which
`rows.try_next().await.unwrap()` panics at once (no retry, no `ExtractIo`);
end of the list is the cursor reporting `None`.  Returns the outcome and the
rows pushed before it. -/
def extract_all_fetch : List (Except Unit SliceRow) → Outcome × List SliceRow
  | [] => (Outcome.ok, [])
  | Except.ok r :: rest =>
    let (o, pushed) := extract_all_fetch rest
    (o, r :: pushed)
  | Except.error _ :: _ => (Outcome.panicked, [])

end MysqlSnapshotExtractor

/-! ## MysqlStructExtractor (dt-connector/src/extractor/mysql/mysql_struct_extractor.rs) -/

namespace MysqlStructExtractor

/-- Modelled from the spec: the parsed structured DDL statements the fetcher
returns (§4.C.2, §6); payloads are opaque to the extractor and carried as
strings. -/
inductive StructStatement where
| mysqlCreateDatabase : String → StructStatement
| mysqlCreateTable : String → StructStatement
deriving DecidableEq, Repr

/-- Modelled from the spec: `DdlType` — the extractor only ever writes
`DdlType::Unknown`. -/
inductive DdlType where
| unknown : DdlType
deriving DecidableEq, Repr

/-- Modelled from the spec: `DdlData` (§3): schema, table, raw `query`,
optional parsed `statement`, and a ddl type. -/
structure DdlData where
  schema : String
  tb : String
  query : String
  statement : Option StructStatement
  ddl_type : DdlType
deriving DecidableEq, Repr

/-- Embedding of `MysqlStructExtractor::push_dt_data`
(mysql_struct_extractor.rs:62-74): wraps a statement as a `Ddl` item with
`tb`/`query` empty, `statement` present, `ddl_type` Unknown. -/
def push_dt_data (db : String) (statement : StructStatement) : DdlData :=
  ⟨db, "", "", some statement, DdlType.unknown⟩

/-- Embedding of `MysqlStructExtractor::extract_internal`
(mysql_struct_extractor.rs:38-60): one `MysqlCreateDatabase` item from the
fetcher's database statement, then one `MysqlCreateTable` item per fetched
table statement, in fetcher order. -/
def extract_internal (db : String) (database : String) (tables : List String) :
    List DdlData :=
  push_dt_data db (StructStatement.mysqlCreateDatabase database) ::
    tables.map (fun t => push_dt_data db (StructStatement.mysqlCreateTable t))

/-- Does a `DdlData` carry a create-database statement? -/
def isCreateDb (dd : DdlData) : Bool :=
  match dd.statement with
  | some (StructStatement.mysqlCreateDatabase _) => true
  | _ => false

end MysqlStructExtractor

/-! ## RedisPrechecker (dt-precheck/src/prechecker/redis_prechecker.rs) -/

namespace RedisPrechecker

/-- An exact (unnormalized) signed fraction `num / den`, `den` a positive
power of ten by construction.  Used instead of a normalizing rational type so
that every comparison reduces in the kernel. -/
structure DecVal where
  num : Int
  den : Nat
deriving DecidableEq, Repr

/-- Strict order on `DecVal` by cross-multiplication (sound because every
denominator built by the parser is positive). -/
def DecVal.lt (a b : DecVal) : Prop := a.num * (b.den : Int) < b.num * (a.den : Int)

instance (a b : DecVal) : Decidable (DecVal.lt a b) := by
  unfold DecVal.lt; infer_instance

/-- Numeric value of a digit character. -/
def digitVal (c : Char) : Nat := c.toNat - 48

/-- Value of a digit run read in base 10. -/
def natOfDigits (ds : List Char) : Nat := ds.foldl (fun a c => a * 10 + digitVal c) 0

/-- The optional exponent tail of a float literal, per Rust's documented
`f32::from_str` grammar `Exp ::= [eE] Sign? Digit+`; `some e` when the whole
remaining input is a well-formed (possibly absent) exponent. -/
def parseExp (cs : List Char) : Option Int :=
  match cs with
  | [] => some 0
  | e :: rest =>
    if e.toLower = 'e' then
      let (sgn, rest') : Int × List Char :=
        match rest with
        | '+' :: r => (1, r)
        | '-' :: r => (-1, r)
        | _ => (1, rest)
      let (ds, rest'') := rest'.span Char.isDigit
      if ds.isEmpty ∨ ¬rest''.isEmpty then none
      else some (sgn * (natOfDigits ds : Int))
    else none

/-- Scale a value by a signed power of ten. -/
def applyExp (q : DecVal) (e : Int) : DecVal :=
  if 0 ≤ e then ⟨q.num * 10 ^ e.toNat, q.den⟩ else ⟨q.num, q.den * 10 ^ (-e).toNat⟩

/-- The unsigned finite part of Rust's `f32::from_str` grammar,
`Number ::= Digit+ '.'? Digit* Exp? | '.' Digit+ Exp?`, with its exact
decimal value (the binary32 rounding that `parse::<f32>()` applies to this
value is abstracted away; it never changes which strings parse, only values
by < 2^-24 relative). -/
def parseNumber (cs : List Char) : Option DecVal :=
  let (d1, r1) := cs.span Char.isDigit
  match r1 with
  | '.' :: r2 =>
    let (d2, r3) := r2.span Char.isDigit
    if d1.isEmpty ∧ d2.isEmpty then none
    else
      match parseExp r3 with
      | some e => some (applyExp ⟨(natOfDigits (d1 ++ d2) : Int), 10 ^ d2.length⟩ e)
      | none => none
  | _ =>
    if d1.isEmpty then none
    else
      match parseExp r1 with
      | some e => some (applyExp ⟨(natOfDigits d1 : Int), 1⟩ e)
      | none => none

/-- A stand-in magnitude for infinity and NaN, beyond every finite version
number; with it, `inf` compares above 2.8 (no error), `-inf` below (error),
and NaN — for which `nan < 2.8` is false in Rust — also lands above. -/
def bigInf : DecVal := ⟨10 ^ 40, 1⟩

/-- `version.parse::<f32>()` as a partial function: Rust std's documented
grammar `Float ::= Sign? ('inf' | 'infinity' | 'nan' | Number)` with the
keywords case-insensitive; `none` is the `Err` case, on which the source
calls `.unwrap()` and panics. -/
def parseF32 (s : String) : Option DecVal :=
  let cs := s.data
  let (sgn, cs') : Int × List Char :=
    match cs with
    | '+' :: r => (1, r)
    | '-' :: r => (-1, r)
    | _ => (1, cs)
  let low := cs'.map Char.toLower
  if low = "inf".data ∨ low = "infinity".data then
    some ⟨sgn * bigInf.num, bigInf.den⟩
  else if low = "nan".data then some bigInf
  else (parseNumber cs').map (fun q => ⟨sgn * q.num, q.den⟩)

/-- `MIN_SUPPORTED_VERSION: f32 = 2.8` (redis_prechecker.rs:34), as the
exact decimal 28/10. -/
def MIN_SUPPORTED_VERSION : DecVal := ⟨28, 10⟩

/-- What `check_database_version` does with a fetched version string:
panic, or return a `CheckResult` that does / does not carry an error. -/
inductive CheckOutcome where
| panicked : CheckOutcome
| okResult : Bool → CheckOutcome
deriving DecidableEq, Repr

/-- Embedding of `RedisPrechecker::check_database_version`
(redis_prechecker.rs:48-66), given the fetched version string:
`version.parse().unwrap()` panics on any non-float string; otherwise the
returned `CheckResult` carries an error exactly when
`version < MIN_SUPPORTED_VERSION`. -/
def check_database_version (version : String) : CheckOutcome :=
  match parseF32 version with
  | none => CheckOutcome.panicked
  | some v => CheckOutcome.okResult (decide (DecVal.lt v MIN_SUPPORTED_VERSION))

end RedisPrechecker

/-! # Theorems

## C1 — SnapshotParallelizer::partition -/

namespace SnapshotParallelizer

lemma getD_map_range (f : Nat → List α) (p j : Nat) (hj : j < p) :
    ((List.range p).map f).getD j [] = f j := by
  rw [List.getD_eq_getElem?_getD, List.getElem?_map, List.getElem?_range hj]
  rfl

/-- One fill step turns the chunk decomposition of `take m` into that of
`take (m+1)`. -/
lemma place_chunks (data : List α) (avg p m : Nat) (havg : 1 ≤ avg)
    (hm : m < data.length) (hdiv : m / avg < p) (hd : data[m]? = some d) :
    place avg ((List.range p).map (fun k => ((data.take m).drop (k * avg)).take avg)) m d =
    (List.range p).map (fun k => ((data.take (m + 1)).drop (k * avg)).take avg) := by
  have hTlen : (data.take m).length = m := by
    rw [List.length_take]; exact Nat.min_eq_left (Nat.le_of_lt hm)
  have htsucc : data.take (m + 1) = data.take m ++ [d] := by
    rw [List.take_succ, hd]; rfl
  have hdm : avg * (m / avg) + m % avg = m := Nat.div_add_mod m avg
  have hcomm : m / avg * avg = avg * (m / avg) := Nat.mul_comm _ _
  have hmodlt : m % avg < avg := Nat.mod_lt m (by omega)
  have hmod : m - (m / avg) * avg = m % avg := by omega
  have hjle : (m / avg) * avg ≤ m := by omega
  have hmlt : m < (m / avg) * avg + avg := by omega
  unfold place
  rw [getD_map_range _ _ _ hdiv]
  apply List.ext_getElem
  · simp [List.length_set]
  intro k h1 h2
  have hk : k < p := by simpa using h2
  rw [List.getElem_set]
  simp only [List.getElem_map, List.getElem_range]
  by_cases hkj : m / avg = k
  · subst hkj
    rw [if_pos rfl, htsucc]
    rw [List.drop_append_of_le_length (by rw [hTlen]; omega)]
    rw [List.take_append_eq_append_take]
    have hAlen : ((data.take m).drop (m / avg * avg)).length = m % avg := by
      rw [List.length_drop, hTlen, hmod]
    have hA : ((data.take m).drop (m / avg * avg)).take avg =
        (data.take m).drop (m / avg * avg) := by
      apply List.take_of_length_le
      rw [hAlen]
      omega
    rw [hA, hAlen]
    have h1d : ([d].take (avg - m % avg)) = [d] := by
      apply List.take_of_length_le
      simp only [List.length_singleton]
      omega
    rw [h1d]
  · rw [if_neg hkj]
    by_cases hcase : k * avg ≤ m
    · -- k strictly below the active bucket: its chunk is already full
      have hklt : k < m / avg := by
        by_contra hnot
        have hgt : m / avg < k :=
          lt_of_le_of_ne (Nat.le_of_not_lt hnot) (fun e => hkj e)
        have h5 : m / avg + 1 ≤ k := hgt
        have h6 : (m / avg + 1) * avg ≤ k * avg := Nat.mul_le_mul h5 (le_refl avg)
        have h7 : (m / avg + 1) * avg = m / avg * avg + avg := by ring
        omega
      have hfull : avg ≤ m - k * avg := by
        have h5 : k + 1 ≤ m / avg := hklt
        have h6 : (k + 1) * avg ≤ (m / avg) * avg := Nat.mul_le_mul h5 (le_refl avg)
        have h7 : (k + 1) * avg = k * avg + avg := by ring
        omega
      rw [htsucc, List.drop_append_of_le_length (by rw [hTlen]; omega)]
      rw [List.take_append_eq_append_take]
      have hAlen : ((data.take m).drop (k * avg)).length = m - k * avg := by
        rw [List.length_drop, hTlen]
      rw [hAlen]
      have hz : avg - (m - k * avg) = 0 := by omega
      rw [hz]
      simp
    · -- k above the active bucket: both chunks are empty
      have hgt : m < k * avg := Nat.lt_of_not_le hcase
      have h1 : (data.take (m + 1)).drop (k * avg) = [] := by
        apply List.drop_eq_nil_of_le
        rw [List.length_take]
        have : k * avg ≥ m + 1 := hgt
        exact le_trans (Nat.min_le_left _ _) this
      have h2 : (data.take m).drop (k * avg) = [] := by
        apply List.drop_eq_nil_of_le
        rw [hTlen]; omega
      rw [h1, h2]

/-- The fill loop of `partition`, run on the first `m` rows, produces the
contiguous chunk decomposition of those rows. -/
lemma foldl_place_chunks (data : List α) (p avg : Nat) (havg : 1 ≤ avg)
    (hbound : data.length ≤ p * avg) :
    ∀ m, m ≤ data.length →
      (data.take m).enum.foldl (fun acc q => place avg acc q.1 q.2)
        (List.replicate p []) =
      (List.range p).map (fun k => ((data.take m).drop (k * avg)).take avg) := by
  intro m
  induction m with
  | zero =>
    intro _
    simp only [List.take_zero, List.enum_nil, List.foldl_nil]
    apply List.ext_getElem
    · simp
    intro k h1 h2
    simp [List.getElem_replicate, List.getElem_map]
  | succ m ih =>
    intro hm1
    have hm : m < data.length := Nat.lt_of_succ_le hm1
    have hd : data[m]? = some data[m] := List.getElem?_eq_getElem hm
    have htsucc : data.take (m + 1) = data.take m ++ [data[m]] := by
      rw [List.take_succ, hd]; rfl
    have hTlen : (data.take m).length = m := by
      rw [List.length_take]; exact Nat.min_eq_left (Nat.le_of_lt hm)
    have hdiv : m / avg < p := by
      rw [Nat.div_lt_iff_lt_mul (by omega)]
      exact Nat.lt_of_lt_of_le hm hbound
    conv_lhs => rw [htsucc]
    rw [List.enum_append, List.foldl_append, hTlen, ih (Nat.le_of_lt hm)]
    have henum : List.enumFrom m [data[m]] = [(m, data[m])] := rfl
    rw [henum]
    simp only [List.foldl_cons, List.foldl_nil]
    exact place_chunks data avg p m havg hm hdiv hd

/-- For `P ≥ 2`, `partition` is the contiguous chunk decomposition with chunk
width `⌊len/P⌋ + 1`, padded to `P` chunks. -/
lemma partition_eq_chunks (data : List α) (p : Nat) (hp : 2 ≤ p) :
    partition data p =
    (List.range p).map
      (fun k => (data.drop (k * (data.length / p + 1))).take (data.length / p + 1)) := by
  unfold partition
  rw [if_neg (by omega)]
  have hbound : data.length ≤ p * (data.length / p + 1) :=
    Nat.le_of_lt (Nat.lt_mul_div_succ data.length (by omega))
  have := foldl_place_chunks data p (data.length / p + 1) (Nat.le_add_left 1 _) hbound
    data.length (le_refl _)
  simpa [List.take_length] using this

/-- Concatenating the chunk decomposition gives back the original list. -/
lemma flatten_chunks (avg : Nat) :
    ∀ (p : Nat) (l : List α),
      ((List.range p).map (fun k => (l.drop (k * avg)).take avg)).flatten =
        l.take (p * avg) := by
  intro p
  induction p with
  | zero => intro l; simp
  | succ p ih =>
    intro l
    rw [List.range_succ_eq_map, List.map_cons, List.flatten_cons, List.map_map]
    have hfun : ((fun k => (l.drop (k * avg)).take avg) ∘ Nat.succ) =
        (fun k => ((l.drop avg).drop (k * avg)).take avg) := by
      funext k
      simp only [Function.comp]
      rw [List.drop_drop]
      congr 2
      rw [Nat.succ_mul, Nat.add_comm]
    rw [hfun, ih (l.drop avg)]
    simp only [Nat.zero_mul, List.drop_zero]
    rw [← List.take_add]
    congr 1
    ring

end SnapshotParallelizer

/-- C1 (amended): for every `data` and `P ≥ 1`,
`SnapshotParallelizer::partition(data, P)` returns at most `P` partitions,
each of size at most `⌊len/P⌋ + 1`, and the concatenation of the partitions
in index order is `data`.  (The claimed bound `⌈len/P⌉` fails when `P`
divides `len`; see the counterexample.) -/
theorem partition_at_most_P_bounded_concat (data : List α) (P : Nat) (hP : 1 ≤ P) :
    (SnapshotParallelizer.partition data P).length ≤ P ∧
    (∀ l ∈ SnapshotParallelizer.partition data P, l.length ≤ data.length / P + 1) ∧
    (SnapshotParallelizer.partition data P).flatten = data := by
  by_cases hp : P ≤ 1
  · have hP1 : P = 1 := le_antisymm hp hP
    subst hP1
    unfold SnapshotParallelizer.partition
    rw [if_pos (le_refl 1)]
    refine ⟨by simp, ?_, by simp⟩
    intro l hl
    simp only [List.mem_singleton] at hl
    subst hl
    simp [Nat.div_one]
  · have hp2 : 2 ≤ P := by omega
    rw [SnapshotParallelizer.partition_eq_chunks data P hp2]
    refine ⟨by simp, ?_, ?_⟩
    · intro l hl
      rw [List.mem_map] at hl
      obtain ⟨k, _, hk⟩ := hl
      rw [← hk, List.length_take]
      exact le_trans (Nat.min_le_left _ _) (le_refl _)
    · rw [SnapshotParallelizer.flatten_chunks]
      apply List.take_of_length_le
      exact Nat.le_of_lt (Nat.lt_mul_div_succ data.length (by omega))

/-- C1 counterexample: for `data = [0,1,2,3]` and `P = 2` the first partition
has 3 rows, exceeding the claimed bound `⌈4/2⌉ = 2` (partitions come out as
`[[0,1,2],[3]]`). -/
theorem partition_ceil_bound_fails :
    ¬ (∀ l ∈ SnapshotParallelizer.partition ([0, 1, 2, 3] : List Nat) 2,
        l.length ≤ (([0, 1, 2, 3] : List Nat).length + 2 - 1) / 2) := by
  decide

/-- C1 witness: the amended bounds hold at `data = [0,1,2]`, `P = 2`. -/
theorem partition_at_most_P_bounded_concat_witness :
    1 ≤ 2 ∧
    ((SnapshotParallelizer.partition ([0, 1, 2] : List Nat) 2).length ≤ 2 ∧
      (∀ l ∈ SnapshotParallelizer.partition ([0, 1, 2] : List Nat) 2,
        l.length ≤ ([0, 1, 2] : List Nat).length / 2 + 1) ∧
      (SnapshotParallelizer.partition ([0, 1, 2] : List Nat) 2).flatten = [0, 1, 2]) :=
  ⟨by decide, partition_at_most_P_bounded_concat [0, 1, 2] 2 (by decide)⟩

/-! ## C2 — PgSinker::batch_insert fallback -/

namespace PgSinker

lemma serial_sink_all_ok (execRow : RowData → Bool) :
    ∀ l : List RowData, (∀ r ∈ l, execRow r = true) →
      serial_sink execRow l = (l, Outcome.ok) := by
  intro l
  induction l with
  | nil => intro _; rfl
  | cons r rest ih =>
    intro h
    have hr : execRow r = true := h r (List.mem_cons_self r rest)
    have hrest := ih (fun x hx => h x (List.mem_cons_of_mem r hx))
    simp only [serial_sink, hr, if_pos, hrest]

lemma serial_sink_fail (execRow : RowData → Bool) :
    ∀ l : List RowData, (∃ r ∈ l, execRow r = false) →
      (serial_sink execRow l).2 = Outcome.panicked := by
  intro l
  induction l with
  | nil => rintro ⟨r, hr, _⟩; cases hr
  | cons r rest ih =>
    rintro ⟨x, hx, hxf⟩
    by_cases hr : execRow r = true
    · have hxrest : x ∈ rest := by
        rcases List.mem_cons.mp hx with h | h
        · subst h; rw [hr] at hxf; cases hxf
        · exact h
      have := ih ⟨x, hxrest, hxf⟩
      simp only [serial_sink, hr, if_pos]
      exact this
    · simp only [serial_sink, hr, if_neg]
      simp at hr
      simp [hr]

lemma serial_sink_submits_front (execRow : RowData → Bool) :
    ∀ l : List RowData, ∃ k, (serial_sink execRow l).1 = l.take k := by
  intro l
  induction l with
  | nil => exact ⟨0, rfl⟩
  | cons r rest ih =>
    by_cases hr : execRow r = true
    · obtain ⟨k, hk⟩ := ih
      refine ⟨k + 1, ?_⟩
      simp only [serial_sink, hr, if_pos, List.take_succ_cons]
      rw [← hk]
    · refine ⟨1, ?_⟩
      simp only [serial_sink, hr]
      simp at hr
      simp [hr]

end PgSinker

/-- C2: when the batched INSERT statement for
`data[sinked_count..sinked_count+batch_size]` fails, exactly the rows of that
sub-batch are re-applied one by one through the serial path (only rows of the
sub-batch, in order, are submitted; all of them when each serial statement
succeeds), and a failing serial statement makes the whole call fatal (the
modelled `unwrap` panic) rather than returning success. -/
theorem batch_insert_fallback_exact_subbatch (execRow : RowData → Bool)
    (data : List RowData) (sinked_count batch_size : Nat)
    (hbounds : sinked_count + batch_size ≤ data.length) :
    ((∀ r ∈ (data.drop sinked_count).take batch_size, execRow r = true) →
      PgSinker.batch_insert false execRow data sinked_count batch_size =
        ((data.drop sinked_count).take batch_size, Outcome.ok)) ∧
    (∃ k, (PgSinker.batch_insert false execRow data sinked_count batch_size).1 =
      ((data.drop sinked_count).take batch_size).take k) ∧
    ((∃ r ∈ (data.drop sinked_count).take batch_size, execRow r = false) →
      (PgSinker.batch_insert false execRow data sinked_count batch_size).2 =
        Outcome.panicked ∧
      (PgSinker.batch_insert false execRow data sinked_count batch_size).2 ≠
        Outcome.ok) := by
  refine ⟨?_, ?_, ?_⟩
  · intro h
    unfold PgSinker.batch_insert
    rw [if_neg (by simp)]
    exact PgSinker.serial_sink_all_ok execRow _ h
  · unfold PgSinker.batch_insert
    rw [if_neg (by simp)]
    exact PgSinker.serial_sink_submits_front execRow _
  · intro h
    unfold PgSinker.batch_insert
    rw [if_neg (by simp)]
    have := PgSinker.serial_sink_fail execRow _ h
    rw [this]
    exact ⟨rfl, by simp⟩

/-- C2 witness: a concrete sub-batch (`data[1..3]` of a 3-row vector) whose
second row's serial statement fails makes the fallback fatal. -/
theorem batch_insert_fallback_exact_subbatch_witness :
    (PgSinker.batch_insert false
      (fun r => !(r.tb == "b"))
      [(⟨"s", "a", RowType.insert, none, none⟩ : RowData),
        ⟨"s", "b", RowType.insert, none, none⟩,
        ⟨"s", "c", RowType.insert, none, none⟩] 1 2).2 = Outcome.panicked :=
  ((batch_insert_fallback_exact_subbatch (fun r => !(r.tb == "b"))
      [⟨"s", "a", RowType.insert, none, none⟩,
        ⟨"s", "b", RowType.insert, none, none⟩,
        ⟨"s", "c", RowType.insert, none, none⟩] 1 2 (by decide)).2.2
    ⟨⟨"s", "b", RowType.insert, none, none⟩, by decide, by decide⟩).1

/-! ## C5 — PgSinker::get_insert_query upsert clause -/

namespace PgSinker

/-- The columns the SET loop assigns are exactly the table's columns, in
order. -/
lemma upsertLoop_cols (after : List (String × ColValue)) :
    ∀ (cols : List String) (idx : Nat),
      (upsertLoop after cols idx).map (fun t => t.2.1) = cols := by
  intro cols
  induction cols with
  | nil => intro idx; rfl
  | cons c rest ih =>
    intro idx
    simp only [upsertLoop, List.map_cons]
    rw [ih]

/-- The binds the SET loop adds are the `after` values of the table's
columns, in order. -/
lemma upsertLoop_binds (after : List (String × ColValue)) :
    ∀ (cols : List String) (idx : Nat),
      (upsertLoop after cols idx).map (fun t => t.2.2) = cols.map (mapGet after) := by
  intro cols
  induction cols with
  | nil => intro idx; rfl
  | cons c rest ih =>
    intro idx
    simp only [upsertLoop, List.map_cons]
    rw [ih]

/-- The SET pairs rendered by the loop: each table column paired with a
placeholder index, the indices consecutive from the starting index. -/
lemma upsertLoop_pairs (after : List (String × ColValue)) :
    ∀ (cols : List String) (idx : Nat),
      (upsertLoop after cols idx).map (fun t => t.1) =
        (cols.zip (List.range' idx cols.length 1)).map
          (fun p => SqlUtil.quote p.1 ++ "=" ++ SqlUtil.get_placeholder p.2 p.1) := by
  intro cols
  induction cols with
  | nil => intro idx; rfl
  | cons c rest ih =>
    intro idx
    rw [List.length_cons, List.range'_succ, List.zip_cons_cons]
    simp only [upsertLoop, List.map_cons]
    rw [ih]

end PgSinker

/-- C5 (amended): for every Insert `RowData` with `after` present,
`PgSinker::get_insert_query` appends an `ON CONFLICT (id_cols) DO UPDATE SET`
clause whose assignments cover **every column of the table — key columns
included** (hence every non-key column), with placeholder indices numbered
consecutively starting one past the end of the VALUES-clause placeholders.
(The claimed exclusion of key columns fails; see the counterexample.) -/
theorem pg_upsert_set_covers_all_cols (tb_meta : PgTbMeta) (row_data : RowData)
    (after : List (String × ColValue)) (hafter : row_data.after = some after) :
    PgSinker.get_insert_query tb_meta row_data =
      some ((SqlUtil.get_insert_query tb_meta row_data).1 ++ " ON CONFLICT (" ++
          String.intercalate "," (SqlUtil.quote_cols tb_meta.basic.id_cols) ++
          ") DO UPDATE SET " ++
          String.intercalate ","
            ((tb_meta.basic.cols.zip
                (List.range' (tb_meta.basic.cols.length + 1)
                  tb_meta.basic.cols.length 1)).map
              (fun p => SqlUtil.quote p.1 ++ "=" ++ SqlUtil.get_placeholder p.2 p.1)),
        tb_meta.basic.cols ++ tb_meta.basic.cols,
        (SqlUtil.get_insert_query tb_meta row_data).2.2 ++
          tb_meta.basic.cols.map (mapGet after)) := by
  unfold PgSinker.get_insert_query
  rw [hafter]
  simp only
  rw [PgSinker.upsertLoop_pairs, PgSinker.upsertLoop_cols, PgSinker.upsertLoop_binds]
  rfl

/-- C5 counterexample: on a table with `cols = [id, val]`, `id_cols = [id]`,
the generated upsert SET clause assigns the key column `id` (as `"id"=$3`),
refuting the claim that no key column receives an assignment. -/
theorem pg_upsert_assigns_key_col :
    PgSinker.get_insert_query
        ⟨⟨"public", "t", ["id", "val"], ["id"], some "id"⟩⟩
        ⟨"public", "t", RowType.insert, none,
          some [("id", ColValue.intV 1), ("val", ColValue.strV "a")]⟩ =
      some ("INSERT INTO public.t (\"id\",\"val\") VALUES ($1,$2) ON CONFLICT (\"id\") DO UPDATE SET \"id\"=$3,\"val\"=$4",
        ["id", "val", "id", "val"],
        [some (ColValue.intV 1), some (ColValue.strV "a"),
          some (ColValue.intV 1), some (ColValue.strV "a")]) ∧
    ¬ (∀ c ∈ (PgSinker.upsertLoop
          [("id", ColValue.intV 1), ("val", ColValue.strV "a")]
          ["id", "val"] 3).map (fun t => t.2.1),
        c ∉ (["id"] : List String)) :=
  ⟨by decide, by decide⟩

/-- C5 witness: the amended description holds at the two-column example
table. -/
theorem pg_upsert_set_covers_all_cols_witness :
    (PgSinker.get_insert_query
        ⟨⟨"public", "t", ["id", "val"], ["id"], some "id"⟩⟩
        ⟨"public", "t", RowType.insert, none,
          some [("id", ColValue.intV 1), ("val", ColValue.strV "a")]⟩).isSome := by
  rw [pg_upsert_set_covers_all_cols
    ⟨⟨"public", "t", ["id", "val"], ["id"], some "id"⟩⟩
    ⟨"public", "t", RowType.insert, none,
      some [("id", ColValue.intV 1), ("val", ColValue.strV "a")]⟩
    [("id", ColValue.intV 1), ("val", ColValue.strV "a")] rfl]
  rfl

/-! ## C6 — PgSinker::sink_dml dispatch -/

/-- C6 (amended): with `batch = true` and non-empty input, the path is chosen
by `data[0].row_type` alone: batch-insert when the first row is an Insert,
batch-delete when it is a Delete, serial otherwise.  A mixed vector whose
first row is an Insert therefore goes down the batch-insert path, not the
serial path. -/
theorem sink_dml_dispatch_by_first_row (data : List RowData) (d0 : RowData)
    (rest : List RowData) (hdata : data = d0 :: rest) :
    PgSinker.sink_dml data true =
      match d0.row_type with
      | RowType.insert => PgSinker.SinkPath.batchInsertPath data
      | RowType.delete => PgSinker.SinkPath.batchDeletePath data
      | RowType.update => PgSinker.SinkPath.serialPath data := by
  subst hdata
  rcases d0 with ⟨s, t, rt, b, a⟩
  cases rt <;> rfl

/-- C6 counterexample: a mixed two-row vector (Insert then Delete) with
`batch = true` is routed down the batch-insert path, not row-by-row through
the serial path as claimed. -/
theorem sink_dml_mixed_not_serial :
    (¬ (∀ r ∈ [(⟨"s", "t", RowType.insert, none, none⟩ : RowData),
          ⟨"s", "t", RowType.delete, none, none⟩],
        r.row_type = RowType.insert)) ∧
    PgSinker.sink_dml
        [⟨"s", "t", RowType.insert, none, none⟩,
          ⟨"s", "t", RowType.delete, none, none⟩] true =
      PgSinker.SinkPath.batchInsertPath
        [⟨"s", "t", RowType.insert, none, none⟩,
          ⟨"s", "t", RowType.delete, none, none⟩] ∧
    PgSinker.sink_dml
        [⟨"s", "t", RowType.insert, none, none⟩,
          ⟨"s", "t", RowType.delete, none, none⟩] true ≠
      PgSinker.SinkPath.serialPath
        [⟨"s", "t", RowType.insert, none, none⟩,
          ⟨"s", "t", RowType.delete, none, none⟩] := by
  refine ⟨by decide, by decide, by decide⟩

/-- C6 witness: the dispatch rule at a one-row Insert vector. -/
theorem sink_dml_dispatch_by_first_row_witness :
    PgSinker.sink_dml [(⟨"s", "t", RowType.insert, none, none⟩ : RowData)] true =
      PgSinker.SinkPath.batchInsertPath
        [⟨"s", "t", RowType.insert, none, none⟩] :=
  sink_dml_dispatch_by_first_row _ ⟨"s", "t", RowType.insert, none, none⟩ [] rfl

/-! ## Slice-loop lemmas (C4, C9) -/

namespace MysqlSnapshotExtractor

lemma sliceQuery_eq_rem (t : List SliceRow) (start : Option Nat) (S : Nat) :
    sliceQuery t start S = (rem t start).take S := by
  cases start <;> rfl

/-- In a strictly sorted table, filtering for keys above the `n`-th key keeps
exactly the rows after position `n`. -/
lemma filter_gt_getElem_eq_drop :
    ∀ (l : List SliceRow), StrictSorted l → ∀ (n : Nat) (h : n < l.length),
      l.filter (fun r => l[n].key < r.key) = l.drop (n + 1) := by
  intro l
  induction l with
  | nil => intro _ n h; cases h
  | cons x xs ih =>
    intro hsorted n h
    have hx := (List.pairwise_cons.mp hsorted).1
    have hxs := (List.pairwise_cons.mp hsorted).2
    cases n with
    | zero =>
      simp only [List.getElem_cons_zero, List.filter_cons]
      rw [if_neg (by simp)]
      rw [List.drop_succ_cons, List.drop_zero]
      rw [List.filter_eq_self]
      intro r hr
      simpa using hx r hr
    | succ n =>
      have hn : n < xs.length := by simpa using h
      simp only [List.getElem_cons_succ, List.filter_cons]
      rw [if_neg ?side]
      case side =>
        simp only [decide_eq_true_eq]
        have h1 : x.key < xs[n].key := hx xs[n] (List.getElem_mem hn)
        omega
      rw [ih hxs n hn]
      rfl

/-- Striding step: a full slice taken from `t.drop d` advances the keyset
predicate to exactly `t.drop (d + S)`. -/
lemma rem_after_full_slice (t : List SliceRow) (S d : Nat)
    (hsorted : StrictSorted t) (hS : 1 ≤ S) (hlen : d + S ≤ t.length)
    (r : SliceRow) (hlast : ((t.drop d).take S).getLast? = some r) :
    rem t (some r.key) = t.drop (d + S) := by
  have hidx : d + (S - 1) < t.length := by omega
  have hlen' : S - 1 < (t.drop d).length := by
    rw [List.length_drop]; omega
  have hr : r = t[d + (S - 1)] := by
    have htake : ((t.drop d).take S).getLast? = (t.drop d)[S - 1]? := by
      rw [List.getLast?_eq_getElem?]
      have hlt : S ⊓ (t.drop d).length = S := by
        rw [List.length_drop]; exact Nat.min_eq_left (by omega)
      rw [List.length_take, hlt, List.getElem?_take, if_pos (by omega)]
    rw [htake, List.getElem?_eq_getElem hlen'] at hlast
    have := Option.some.inj hlast
    rw [← this, List.getElem_drop]
  have := filter_gt_getElem_eq_drop t hsorted (d + (S - 1)) hidx
  have hd1 : d + (S - 1) + 1 = d + S := by omega
  rw [hd1] at this
  rw [rem, hr]
  exact this

/-- Main run lemma: from any loop state whose keyset residue is the suffix
`t.drop d`, with enough fuel the loop terminates, pushes exactly that suffix,
and logs `⌊L/S⌋` full slices followed by one short slice of `L % S` rows
(`L` the residue length). -/
lemma sliceLoop_run (t : List SliceRow) (S : Nat) (hsorted : StrictSorted t)
    (hS : 1 ≤ S) :
    ∀ (fuel : Nat) (start : Option Nat) (pushed : List SliceRow) (lens : List Nat)
      (d : Nat), rem t start = t.drop d → d ≤ t.length → t.length - d < fuel →
      sliceLoop t S fuel start pushed lens =
        some ⟨pushed ++ t.drop d,
          lens ++ (List.replicate ((t.length - d) / S) S ++ [(t.length - d) % S])⟩ := by
  intro fuel
  induction fuel with
  | zero => intro start pushed lens d _ _ hfuel; cases hfuel
  | succ fuel ih =>
    intro start pushed lens d hrem hd hfuel
    have hrows : sliceQuery t start S = (t.drop d).take S := by
      rw [sliceQuery_eq_rem, hrem]
    have hLlen : (t.drop d).length = t.length - d := List.length_drop d t
    by_cases hshort : t.length - d < S
    · -- final short slice: the residue fits in one query
      have htake : (t.drop d).take S = t.drop d :=
        List.take_of_length_le (by omega)
      have hcnt : ((t.drop d).take S).length = t.length - d := by
        rw [htake, hLlen]
      rw [sliceLoop, hrows, hcnt, if_pos hshort]
      rw [htake]
      have hdiv : (t.length - d) / S = 0 := Nat.div_eq_of_lt hshort
      have hmod : (t.length - d) % S = t.length - d := Nat.mod_eq_of_lt hshort
      rw [hdiv, hmod]
      rfl
    · -- full slice: recurse on the strictly smaller residue
      have hSle : S ≤ t.length - d := Nat.le_of_not_lt hshort
      have hcnt : ((t.drop d).take S).length = S := by
        rw [List.length_take, hLlen]
        exact Nat.min_eq_left hSle
      have hne : ((t.drop d).take S) ≠ [] := by
        intro hnil
        rw [hnil] at hcnt
        simp at hcnt
        omega
      obtain ⟨r, hr⟩ := Option.ne_none_iff_exists'.mp
        (mt List.getLast?_eq_none_iff.mp hne)
      have hrem' : rem t (some r.key) = t.drop (d + S) :=
        rem_after_full_slice t S d hsorted hS (by omega) r hr
      rw [sliceLoop, hrows, hcnt, if_neg (by omega), hr]
      have hrec := ih (some r.key) (pushed ++ (t.drop d).take S)
        (lens ++ [S]) (d + S) hrem' (by omega) (by omega)
      rw [hrec]
      have hjoin : (pushed ++ (t.drop d).take S) ++ t.drop (d + S) =
          pushed ++ t.drop d := by
        rw [List.append_assoc]
        congr 1
        have : t.drop (d + S) = (t.drop d).drop S := by
          rw [List.drop_drop, Nat.add_comm]
        rw [this, List.take_append_drop]
      have hlens : (lens ++ [S]) ++
          (List.replicate ((t.length - (d + S)) / S) S ++ [(t.length - (d + S)) % S]) =
          lens ++ (List.replicate ((t.length - d) / S) S ++ [(t.length - d) % S]) := by
        have hsub : t.length - (d + S) = (t.length - d) - S := by omega
        have hdiv : (t.length - d) / S = ((t.length - d) - S) / S + 1 :=
          Nat.div_eq_sub_div (by omega) hSle
        have hmod : (t.length - d) % S = ((t.length - d) - S) % S :=
          Nat.mod_eq_sub_mod hSle
        rw [hsub, hdiv, hmod, List.replicate_succ]
        simp
      rw [hjoin, hlens]

/-- With `slice_size = 0`, no fuel ever suffices: every slice query returns
0 rows and the exit test `slice_count < slice_size` is never satisfied. -/
lemma sliceLoop_zero_never_terminates (t : List SliceRow) :
    ∀ (fuel : Nat) (start : Option Nat) (pushed : List SliceRow) (lens : List Nat),
      sliceLoop t 0 fuel start pushed lens = none := by
  intro fuel
  induction fuel with
  | zero => intro _ _ _; rfl
  | succ fuel ih =>
    intro start pushed lens
    rw [sliceLoop]
    rw [if_neg (by omega)]
    exact ih _ _ _

end MysqlSnapshotExtractor

/-- C4: for a strictly sorted table and `slice_size = S ≥ 1`, the sliced scan
terminates and its query log is `⌊len/S⌋` full slices of exactly `S` rows
followed by one final short slice of `len % S (< S)` rows — the loop exits
exactly at the first slice shorter than `S`.  In particular, for a table of
exactly `2·S` rows (e.g. 200 rows, `slice_size` 100) a third query returning
0 rows is issued and then the loop terminates. -/
theorem extract_by_slices_exits_on_short_slice (t : List MysqlSnapshotExtractor.SliceRow)
    (S : Nat) (hsorted : MysqlSnapshotExtractor.StrictSorted t) (hS : 1 ≤ S) :
    ∃ res, MysqlSnapshotExtractor.extract_by_slices t S (t.length + 1) = some res ∧
      res.sliceLens = List.replicate (t.length / S) S ++ [t.length % S] ∧
      t.length % S < S ∧
      (t.length = 2 * S → res.sliceLens = [S, S, 0]) := by
  have h := MysqlSnapshotExtractor.sliceLoop_run t S hsorted hS (t.length + 1)
    none [] [] 0 rfl (Nat.zero_le _) (by omega)
  refine ⟨_, h, ?_, Nat.mod_lt _ (by omega), ?_⟩
  · simp
  · intro h2S
    have hdiv : t.length / S = 2 := by rw [h2S]; exact Nat.mul_div_cancel 2 (by omega)
    have hmod : t.length % S = 0 := by rw [h2S]; exact Nat.mul_mod_left 2 S
    simp [hdiv, hmod]

/-- C4 witness: a 4-row table with `slice_size = 2` issues slices of
`[2, 2, 0]` rows — the third query is empty and the loop then stops. -/
theorem extract_by_slices_exits_on_short_slice_witness :
    ∃ res, MysqlSnapshotExtractor.extract_by_slices [⟨1⟩, ⟨2⟩, ⟨3⟩, ⟨4⟩] 2 5 = some res ∧
      res.sliceLens = [2, 2, 0] := by
  obtain ⟨res, h1, _, _, h4⟩ := extract_by_slices_exits_on_short_slice
    [⟨1⟩, ⟨2⟩, ⟨3⟩, ⟨4⟩] 2 (by decide) (by decide)
  exact ⟨res, h1, h4 (by decide)⟩

/-- C9: `extract_by_slices` terminates for every finite (strictly sorted)
table when `slice_size ≥ 1` — fuel `len + 1` queries always suffices and every
row is pushed — but with `slice_size = 0` every slice query returns 0 rows,
the exit test `slice_count < slice_size` never holds, and no amount of fuel
makes the loop terminate. -/
theorem extract_by_slices_terminates_iff_slice_size_pos
    (t : List MysqlSnapshotExtractor.SliceRow) :
    (∀ fuel, MysqlSnapshotExtractor.extract_by_slices t 0 fuel = none) ∧
    (∀ S, 1 ≤ S → MysqlSnapshotExtractor.StrictSorted t →
      ∃ res, MysqlSnapshotExtractor.extract_by_slices t S (t.length + 1) = some res ∧
        res.pushed = t) := by
  constructor
  · intro fuel
    exact MysqlSnapshotExtractor.sliceLoop_zero_never_terminates t fuel none [] []
  · intro S hS hsorted
    have h := MysqlSnapshotExtractor.sliceLoop_run t S hsorted hS (t.length + 1)
      none [] [] 0 rfl (Nat.zero_le _) (by omega)
    exact ⟨_, h, by simp⟩

/-- C9 witness: at a one-row table, `slice_size = 0` never terminates while
`slice_size = 1` terminates within `len + 1` queries pushing the row. -/
theorem extract_by_slices_terminates_iff_slice_size_pos_witness :
    MysqlSnapshotExtractor.extract_by_slices [⟨1⟩] 0 5 = none ∧
    ∃ res, MysqlSnapshotExtractor.extract_by_slices [⟨1⟩] 1
        (([⟨1⟩] : List MysqlSnapshotExtractor.SliceRow).length + 1) = some res ∧
      res.pushed = [⟨1⟩] :=
  ⟨(extract_by_slices_terminates_iff_slice_size_pos [⟨1⟩]).1 5,
    (extract_by_slices_terminates_iff_slice_size_pos [⟨1⟩]).2 1 (by decide) (by decide)⟩

/-! ## C3 — shutdown flag ordering in extract_internal -/

namespace MysqlSnapshotExtractor

/-- A successful wait loop is some (possibly empty) run of negative polls
closed by the one positive poll. -/
lemma waitLoop_shape (empt : Nat → Bool) :
    ∀ (fuel k : Nat) (tr : List ExEvent), waitLoop empt fuel k = some tr →
      ∃ pre, tr = pre ++ [ExEvent.observeEmpty] ∧
        ∀ e ∈ pre, e = ExEvent.observeNonEmpty := by
  intro fuel
  induction fuel with
  | zero => intro k tr h; cases h
  | succ fuel ih =>
    intro k tr h
    rw [waitLoop] at h
    by_cases he : empt k = true
    · rw [if_pos he] at h
      exact ⟨[], (Option.some.inj h).symm, by intro e he'; cases he'⟩
    · rw [if_neg he, Option.map_eq_some'] at h
      obtain ⟨tr', htr', hcons⟩ := h
      obtain ⟨pre, hpre_eq, hpre⟩ := ih (k + 1) tr' htr'
      refine ⟨ExEvent.observeNonEmpty :: pre, ?_, ?_⟩
      · rw [← hcons, hpre_eq]; rfl
      · intro e he'
        rcases List.mem_cons.mp he' with h | h
        · exact h
        · exact hpre e h

/-- Order property of any trace of shape
`pushes ++ (wait observations ++ [store])`: the store is at the unique last
position, every push is before it, and the closing empty observation sits
strictly between. -/
lemma trace_order (M wt : List ExEvent)
    (hM : ∀ e ∈ M, ∃ r, e = ExEvent.push r)
    (hW : ∀ e ∈ wt, e = ExEvent.observeNonEmpty ∨ e = ExEvent.observeEmpty)
    (hlast : wt.getLast? = some ExEvent.observeEmpty)
    (i j : Nat) (r : SliceRow)
    (hi : i < (M ++ (wt ++ [ExEvent.storeShutdown])).length)
    (hj : j < (M ++ (wt ++ [ExEvent.storeShutdown])).length)
    (hstore : (M ++ (wt ++ [ExEvent.storeShutdown]))[i] = ExEvent.storeShutdown)
    (hpush : (M ++ (wt ++ [ExEvent.storeShutdown]))[j] = ExEvent.push r) :
    j < i ∧ ∃ k, ∃ hk : k < (M ++ (wt ++ [ExEvent.storeShutdown])).length,
      j < k ∧ k < i ∧
      (M ++ (wt ++ [ExEvent.storeShutdown]))[k] = ExEvent.observeEmpty := by
  have hlen : (M ++ (wt ++ [ExEvent.storeShutdown])).length =
      M.length + wt.length + 1 := by
    simp only [List.length_append, List.length_singleton]
    omega
  have hwne : wt ≠ [] := by
    intro hnil
    rw [hnil] at hlast
    cases hlast
  have hwpos : 1 ≤ wt.length := by
    cases wt with
    | nil => exact absurd rfl hwne
    | cons a l => simp
  -- the store can only be at the final index
  have hieq : i = M.length + wt.length := by
    by_contra hne
    have hilt : i < M.length + wt.length := by omega
    by_cases hiM : i < M.length
    · rw [List.getElem_append_left hiM] at hstore
      obtain ⟨r', hr'⟩ := hM M[i] (List.getElem_mem hiM)
      rw [hr'] at hstore
      exact ExEvent.noConfusion hstore
    · have h1 : M.length ≤ i := Nat.le_of_not_lt hiM
      rw [List.getElem_append_right h1] at hstore
      have h2 : i - M.length < wt.length := by omega
      rw [List.getElem_append_left h2] at hstore
      rcases hW wt[i - M.length] (List.getElem_mem h2) with h | h <;>
        (rw [h] at hstore; exact ExEvent.noConfusion hstore)
  -- the push can only be among the leading pushes
  have hjM : j < M.length := by
    by_contra hge
    have h1 : M.length ≤ j := Nat.le_of_not_lt hge
    rw [List.getElem_append_right h1] at hpush
    by_cases h2 : j - M.length < wt.length
    · rw [List.getElem_append_left h2] at hpush
      rcases hW wt[j - M.length] (List.getElem_mem h2) with h | h <;>
        (rw [h] at hpush; exact ExEvent.noConfusion hpush)
    · have h3 : wt.length ≤ j - M.length := Nat.le_of_not_lt h2
      rw [List.getElem_append_right h3] at hpush
      simp at hpush
  -- the closing empty observation
  have hkbound : M.length + (wt.length - 1) <
      (M ++ (wt ++ [ExEvent.storeShutdown])).length := by omega
  have hkval : (M ++ (wt ++ [ExEvent.storeShutdown]))[M.length + (wt.length - 1)] =
      ExEvent.observeEmpty := by
    have h1 : M.length ≤ M.length + (wt.length - 1) := Nat.le_add_right _ _
    rw [List.getElem_append_right h1]
    have h2 : M.length + (wt.length - 1) - M.length < wt.length := by omega
    rw [List.getElem_append_left h2]
    have h3 : wt.getLast? = wt[wt.length - 1]? := List.getLast?_eq_getElem? wt
    have h4 : wt[wt.length - 1]? = some wt[wt.length - 1] :=
      List.getElem?_eq_getElem (by omega)
    rw [h3, h4] at hlast
    have h5 := Option.some.inj hlast
    have h6 : M.length + (wt.length - 1) - M.length = wt.length - 1 := by omega
    simp only [h6]
    exact h5
  refine ⟨by omega, M.length + (wt.length - 1), hkbound, by omega, by omega, hkval⟩

end MysqlSnapshotExtractor

/-- C3: in every completed run of `extract_internal` (with or without an
order column), the `shut_down.store(true, Release)` event comes strictly
after every `push` of the extraction, and an observation of the queue being
empty sits strictly between the push and the store — the store never precedes
a push.  (The `Release` ordering itself is an atomics annotation outside the
sequential model; the claim's temporal content is what is proved.) -/
theorem shutdown_store_after_pushes_and_empty_observation
    (hasOrderCol : Bool) (t : List MysqlSnapshotExtractor.SliceRow) (S : Nat)
    (empt : Nat → Bool) (fuel wfuel : Nat)
    (tr : List MysqlSnapshotExtractor.ExEvent)
    (htr : MysqlSnapshotExtractor.extract_internal hasOrderCol t S empt fuel wfuel =
      some tr)
    (i j : Nat) (hi : i < tr.length) (hj : j < tr.length)
    (r : MysqlSnapshotExtractor.SliceRow)
    (hstore : tr[i] = MysqlSnapshotExtractor.ExEvent.storeShutdown)
    (hpush : tr[j] = MysqlSnapshotExtractor.ExEvent.push r) :
    j < i ∧ ∃ k, ∃ hk : k < tr.length, j < k ∧ k < i ∧
      tr[k] = MysqlSnapshotExtractor.ExEvent.observeEmpty := by
  have hdecomp : ∃ (rows : List MysqlSnapshotExtractor.SliceRow)
      (wt : List MysqlSnapshotExtractor.ExEvent),
      MysqlSnapshotExtractor.waitLoop empt wfuel 0 = some wt ∧
      tr = rows.map MysqlSnapshotExtractor.ExEvent.push ++
        (wt ++ [MysqlSnapshotExtractor.ExEvent.storeShutdown]) := by
    simp only [MysqlSnapshotExtractor.extract_internal] at htr
    split at htr
    · exact absurd htr (by simp)
    · rename_i rows hrows
      rw [Option.map_eq_some'] at htr
      obtain ⟨wt, hwl, hfw⟩ := htr
      refine ⟨rows, wt, hwl, ?_⟩
      rw [← List.append_assoc]
      exact hfw.symm
  obtain ⟨rows, wt, hwl, htrace⟩ := hdecomp
  obtain ⟨pre, hpre_eq, hpre⟩ :=
    MysqlSnapshotExtractor.waitLoop_shape empt wfuel 0 wt hwl
  subst htrace
  apply MysqlSnapshotExtractor.trace_order
  · intro e he
    obtain ⟨r', _, hr'⟩ := List.mem_map.mp he
    exact ⟨r', hr'.symm⟩
  · intro e he
    rw [hpre_eq] at he
    rcases List.mem_append.mp he with h | h
    · exact Or.inl (hpre e h)
    · exact Or.inr (List.mem_singleton.mp h)
  · rw [hpre_eq]
    exact List.getLast?_concat pre
  · exact hstore
  · exact hpush

/-- C3 witness: the ordering at a concrete one-row extraction whose trace is
`[push, observeEmpty, storeShutdown]`. -/
theorem shutdown_store_after_pushes_witness :
    0 < 2 ∧ ∃ k, ∃ hk : k <
        ([MysqlSnapshotExtractor.ExEvent.push ⟨1⟩,
          MysqlSnapshotExtractor.ExEvent.observeEmpty,
          MysqlSnapshotExtractor.ExEvent.storeShutdown] :
          List MysqlSnapshotExtractor.ExEvent).length,
      0 < k ∧ k < 2 ∧
      ([MysqlSnapshotExtractor.ExEvent.push ⟨1⟩,
        MysqlSnapshotExtractor.ExEvent.observeEmpty,
        MysqlSnapshotExtractor.ExEvent.storeShutdown] :
        List MysqlSnapshotExtractor.ExEvent)[k] =
        MysqlSnapshotExtractor.ExEvent.observeEmpty :=
  shutdown_store_after_pushes_and_empty_observation true [⟨1⟩] 1 (fun _ => true) 3 1
    [MysqlSnapshotExtractor.ExEvent.push ⟨1⟩,
      MysqlSnapshotExtractor.ExEvent.observeEmpty,
      MysqlSnapshotExtractor.ExEvent.storeShutdown]
    (by decide) 2 0 (by decide) (by decide) ⟨1⟩ (by decide) (by decide)

/-! ## C7 — transient read errors in extract_all -/

/-- C7 (code behavior at the failing input): a transient error from
`try_next()` makes `extract_all` panic at once via `unwrap` — no retry is
attempted (the second fetch would succeed, yet the run still panics and no
`ExtractIo` error value is produced), and rows fetched before the error are
the only ones pushed. -/
theorem extract_all_unwrap_panics_without_retry :
    MysqlSnapshotExtractor.extract_all_fetch
        [Except.error (), Except.ok ⟨5⟩] = (Outcome.panicked, []) ∧
    MysqlSnapshotExtractor.extract_all_fetch
        [Except.ok ⟨1⟩, Except.error (), Except.ok ⟨2⟩] =
      (Outcome.panicked, [⟨1⟩]) :=
  ⟨rfl, rfl⟩

/-! ## C8 — MysqlStructExtractor emission order -/

/-- C8: `extract_internal` emits first exactly one `Ddl` item carrying the
`MysqlCreateDatabase` statement and then one `Ddl` item per
`MysqlCreateTable` statement in fetcher order; every emitted `DdlData` has
its structured `statement` present (so the query-or-statement invariant
holds). -/
theorem struct_extract_emits_db_then_tables (db database : String)
    (tables : List String) :
    (MysqlStructExtractor.extract_internal db database tables).length =
      tables.length + 1 ∧
    (MysqlStructExtractor.extract_internal db database tables)[0]? =
      some (MysqlStructExtractor.push_dt_data db
        (MysqlStructExtractor.StructStatement.mysqlCreateDatabase database)) ∧
    (∀ i : Nat, (MysqlStructExtractor.extract_internal db database tables)[i + 1]? =
      (tables[i]?).map (fun tb => MysqlStructExtractor.push_dt_data db
        (MysqlStructExtractor.StructStatement.mysqlCreateTable tb))) ∧
    (MysqlStructExtractor.extract_internal db database tables).countP
      MysqlStructExtractor.isCreateDb = 1 ∧
    ∀ dd ∈ MysqlStructExtractor.extract_internal db database tables,
      dd.statement.isSome = true := by
  refine ⟨by simp [MysqlStructExtractor.extract_internal],
    by simp [MysqlStructExtractor.extract_internal], ?_, ?_, ?_⟩
  · intro i
    simp only [MysqlStructExtractor.extract_internal, List.getElem?_cons_succ]
    rw [List.getElem?_map]
  · simp only [MysqlStructExtractor.extract_internal]
    rw [List.countP_cons]
    have h0 : (tables.map fun tb => MysqlStructExtractor.push_dt_data db
        (MysqlStructExtractor.StructStatement.mysqlCreateTable tb)).countP
        MysqlStructExtractor.isCreateDb = 0 := by
      rw [List.countP_eq_zero]
      intro a ha
      obtain ⟨tb, _, htb⟩ := List.mem_map.mp ha
      rw [← htb]
      simp [MysqlStructExtractor.isCreateDb, MysqlStructExtractor.push_dt_data]
    rw [h0]
    simp [MysqlStructExtractor.isCreateDb, MysqlStructExtractor.push_dt_data]
  · intro dd hdd
    simp only [MysqlStructExtractor.extract_internal, List.mem_cons] at hdd
    rcases hdd with h | h
    · subst h; rfl
    · obtain ⟨tb, _, htb⟩ := List.mem_map.mp h
      rw [← htb]; rfl

/-- C8 witness: at a concrete schema with one table, exactly one emitted item
carries a create-database statement. -/
theorem struct_extract_emits_db_then_tables_witness :
    (MysqlStructExtractor.extract_internal "d" "cd" ["t1"]).countP
      MysqlStructExtractor.isCreateDb = 1 :=
  (struct_extract_emits_db_then_tables "d" "cd" ["t1"]).2.2.2.1

/-! ## C10 — RedisPrechecker::check_database_version -/

/-- C10: `check_database_version` panics (via `unwrap` on the f32 parse) for
every fetched version string which is not a float literal — in particular for
the three-component `"7.0.11"` — and only for parseable versions returns a
`CheckResult`, whose error is set exactly when the parsed version is below
2.8. -/
theorem redis_version_check_panics_on_unparseable :
    (RedisPrechecker.parseF32 "7.0.11" = none ∧
      RedisPrechecker.check_database_version "7.0.11" =
        RedisPrechecker.CheckOutcome.panicked) ∧
    ∀ s : String,
      (RedisPrechecker.parseF32 s = none →
        RedisPrechecker.check_database_version s =
          RedisPrechecker.CheckOutcome.panicked) ∧
      (∀ v : RedisPrechecker.DecVal, RedisPrechecker.parseF32 s = some v →
        RedisPrechecker.check_database_version s ≠
          RedisPrechecker.CheckOutcome.panicked ∧
        (RedisPrechecker.check_database_version s =
            RedisPrechecker.CheckOutcome.okResult true ↔
          RedisPrechecker.DecVal.lt v RedisPrechecker.MIN_SUPPORTED_VERSION)) := by
  refine ⟨⟨by decide, by decide⟩, ?_⟩
  intro s
  constructor
  · intro h
    unfold RedisPrechecker.check_database_version
    rw [h]
  · intro v hv
    unfold RedisPrechecker.check_database_version
    rw [hv]
    refine ⟨by simp, ?_, ?_⟩
    · intro h
      have h' := RedisPrechecker.CheckOutcome.okResult.inj h
      exact of_decide_eq_true h'
    · intro h
      simp [h]

/-- C10 witness: version `"2.3"` parses to `23/10 < 2.8` and the returned
check result carries the unsupported-version error. -/
theorem redis_version_check_panics_on_unparseable_witness :
    RedisPrechecker.check_database_version "2.3" =
      RedisPrechecker.CheckOutcome.okResult true :=
  ((redis_version_check_panics_on_unparseable.2 "2.3").2 ⟨23, 10⟩
      (by decide)).2.mpr (by decide)
